import Mathlib

/-!
Verification of the mini EJS template engine (`_lib/mini-ejs.js`).

The engine splits the template on the delimiter pattern `(<%-?=?|-?%>)`,
walks the pieces into text / code / print tokens, applies a whitespace-trim
pass, compiles the tokens into a JavaScript program (one statement per
token, joined by semicolons), and runs that program in a fresh vm context
seeded with `{ o: "", ...data }`, returning the final value of `o`.

Strings are modelled as `List Char`.  The JavaScript evaluation of the
generated program is modelled by a small recursive-descent reader for the
statement shapes the compiler emits (string literals, identifiers,
compound assignment `+=`, `if (...) { ... }` blocks, `;` sequencing) and a
state-passing evaluator over a two-object heap (the caller's data object
and the vm context object), with string and boolean values.
-/

deriving instance DecidableEq for Except

/-- The six delimiter pieces isolated by the split pattern `(<%-?=?|-?%>)`. -/
def oCode : List Char := ['<', '%']

/-- Opener `<%-` : code block, trim whitespace before. -/
def oCodeT : List Char := ['<', '%', '-']

/-- Opener `<%=` : print block, no trim. -/
def oPrint : List Char := ['<', '%', '=']

/-- Opener `<%-=` : print block, trim whitespace before. -/
def oPrintT : List Char := ['<', '%', '-', '=']

/-- Closer `%>`. -/
def cPlain : List Char := ['%', '>']

/-- Closer `-%>`. -/
def cTrim : List Char := ['-', '%', '>']

/-- All delimiter pieces, in the priority order of the regular expression
`(<%-?=?|-?%>)` (greedy optional groups: longest opener form first). -/
def delims : List (List Char) := [oPrintT, oCodeT, oPrint, oCode, cTrim, cPlain]

/-- The delimiter (if any) matched at the head of `cs`, mirroring a match of
the split regex at the current scan position. -/
def matchDelim (cs : List Char) : Option (List Char) :=
  delims.find? (fun d => d.isPrefixOf cs)

/-- Fuel-indexed worker for the split.  `acc` holds the characters of the
current literal piece in reverse.  The fuel-exhausted fallback returns the
same value the loop would (it is unreachable when `fuel ≥ cs.length`). -/
def splitGo : Nat → List Char → List Char → List (List Char)
  | 0, cs, acc => [acc.reverse ++ cs]
  | fuel + 1, cs, acc =>
    match cs with
    | [] => [acc.reverse]
    | c :: rest =>
      match matchDelim (c :: rest) with
      | some d => acc.reverse :: d :: splitGo fuel (rest.drop (d.length - 1)) []
      | none => splitGo fuel rest (c :: acc)

/-- `str.split(/(<%-?=?|-?%>)/g)`: the template text as an alternating list
of literal pieces and delimiter pieces (literal pieces may be empty). -/
def splitTemplate (cs : List Char) : List (List Char) :=
  splitGo cs.length cs []

/-- A token produced by `tokenize`: literal text, a code block, or a print
block.  Code and print tokens carry the two trim flags (`trim.backwards`
from a `<%-` opener, `trim.forward` from a `-%>` closer). -/
inductive Token where
  | text (value : List Char)
  | code (value : List Char) (trimBackwards trimForward : Bool)
  | print (value : List Char) (trimBackwards trimForward : Bool)
deriving DecidableEq

/-- `token.type === 'text'`. -/
def Token.isText : Token → Bool
  | .text _ => true
  | _ => false

/-- `token.trim.forward` (text tokens have no trim object; read as false). -/
def Token.trimFwd : Token → Bool
  | .text _ => false
  | .code _ _ f => f
  | .print _ _ f => f

/-- `token.trim.backwards` (text tokens have no trim object; read as false). -/
def Token.trimBack : Token → Bool
  | .text _ => false
  | .code _ b _ => b
  | .print _ b _ => b

/-- `token.value`. -/
def Token.value : Token → List Char
  | .text v => v
  | .code v _ _ => v
  | .print v _ _ => v

/-- The error message thrown by `tokenize` for a missing or invalid closer. -/
def unclosedMsg : String := "Unclosed <%= expression, missing %>"

/-- The cursor walk of `tokenize` over the split pieces.  An opener consumes
its content piece and its closer piece (`i = i + 2` plus the loop `i++`);
the closer must be `-%>` (setting `trim.forward`) or `%>`, otherwise the
walk throws.  Every other piece (including a stray closer) becomes a text
token. -/
def tokenizePieces : List (List Char) → Except String (List Token)
  | [] => .ok []
  | p :: rest =>
    if p = oCode ∨ p = oCodeT then
      match rest with
      | content :: closer :: rest' =>
        if closer = cTrim then
          (Token.code content (p = oCodeT) true :: ·) <$> tokenizePieces rest'
        else if closer = cPlain then
          (Token.code content (p = oCodeT) false :: ·) <$> tokenizePieces rest'
        else .error unclosedMsg
      | _ => .error unclosedMsg
    else if p = oPrint ∨ p = oPrintT then
      match rest with
      | content :: closer :: rest' =>
        if closer = cTrim then
          (Token.print content (p = oPrintT) true :: ·) <$> tokenizePieces rest'
        else if closer = cPlain then
          (Token.print content (p = oPrintT) false :: ·) <$> tokenizePieces rest'
        else .error unclosedMsg
      | _ => .error unclosedMsg
    else
      (Token.text p :: ·) <$> tokenizePieces rest

/-- `tokenize(str)`: split, then walk the pieces. -/
def tokenize (s : List Char) : Except String (List Token) :=
  tokenizePieces (splitTemplate s)

example : tokenize "Hello, <%= name %>!".toList =
    .ok [Token.text "Hello, ".toList, Token.print " name ".toList false false,
      Token.text "!".toList] := by decide

example : tokenize "a<%b".toList = .error unclosedMsg := by decide

example : tokenize "a-%>b".toList =
    .ok [Token.text "a".toList, Token.text "-%>".toList, Token.text "b".toList] := by
  decide

/-- The whitespace class stripped by the trim pass (`\s` of the regular
expressions `/^\s*/` and `/\s*$/`). -/
def isWs (c : Char) : Bool :=
  c = ' ' || c = '\t' || c = '\n' || c = '\r' || c = '\x0b' || c = '\x0c' ||
  c = '\u00A0' || c = '\uFEFF'

/-- `value.replace(/^\s*/, '')`: drop the maximal leading whitespace run. -/
def stripStart (v : List Char) : List Char := v.dropWhile isWs

/-- `value.replace(/\s*$/, '')`: drop the maximal trailing whitespace run. -/
def stripEnd (v : List Char) : List Char := (v.reverse.dropWhile isWs).reverse

/-- `tokens[k].value = f(tokens[k].value)` guarded by the bounds-and-type
check: if entry `k` exists and is a text token, replace its value by `f`
of it; otherwise do nothing. -/
def stripTextAt (ts : List Token) (k : Nat) (f : List Char → List Char) :
    List Token :=
  match ts[k]? with
  | some (.text w) => ts.set k (.text (f w))
  | _ => ts

/-- One iteration of the trim loop at index `i`: a non-text token strips the
start of the next token (if text) when `trim.forward` is set, then the end
of the previous token (if text) when `trim.backwards` is set. -/
def trimStep (ts : List Token) (i : Nat) : List Token :=
  match ts[i]? with
  | none => ts
  | some t =>
    if t.isText then ts
    else
      let ts1 := if t.trimFwd then stripTextAt ts (i + 1) stripStart else ts
      if t.trimBack ∧ 0 < i then stripTextAt ts1 (i - 1) stripEnd else ts1

/-- The trim pass: the `for` loop over all token indices, mutating in place. -/
def trimPass (ts : List Token) : List Token :=
  (List.range ts.length).foldl trimStep ts

/-- `.replace(/"/g, '\\"')`: escape every double quote. -/
def replaceQuotes : List Char → List Char
  | [] => []
  | c :: rest => (if c = '"' then ['\\', '"'] else [c]) ++ replaceQuotes rest

/-- `.replace(/\r?\n/g, '\\n')`: turn LF and CRLF (but not a lone CR) into
the two-character sequence backslash-n. -/
def replaceNewlines : List Char → List Char
  | [] => []
  | [c] => if c = '\n' then ['\\', 'n'] else [c]
  | c :: d :: rest =>
    if c = '\r' ∧ d = '\n' then '\\' :: 'n' :: replaceNewlines rest
    else if c = '\n' then '\\' :: 'n' :: replaceNewlines (d :: rest)
    else c :: replaceNewlines (d :: rest)

/-- The escaping applied to a text token before it is embedded in a
double-quoted string literal of the generated program. -/
def escapeText (v : List Char) : List Char := replaceNewlines (replaceQuotes v)

/-- The statement text generated for one token: `o += value` for a print
token, the raw statement text for a code token, and `o += "<escaped>"` for
a text token. -/
def compileToken : Token → List Char
  | .print v _ _ => "o += ".toList ++ v
  | .code v _ _ => v
  | .text v => "o += \"".toList ++ escapeText v ++ ['"']

/-- `compileTemplate(str)`: tokenize, run the trim pass, compile each token
and join the statements with semicolons. -/
def compileTemplate (s : List Char) : Except String (List Char) :=
  (tokenize s).map (fun ts => List.intercalate [';'] ((trimPass ts).map compileToken))

example : compileTemplate "Hello, <%= name %>!".toList =
    .ok "o += \"Hello, \";o +=  name ;o += \"!\"".toList := by decide

example : compileTemplate "<%=foo-%>   Bar".toList =
    .ok "o += \"\";o += foo;o += \"Bar\"".toList := by decide

/-! ## The generated program: a JavaScript subset

The compiler only ever emits statements of these shapes: `o += <expr>`
(from print and text tokens) and raw code-token text, joined by `;`.  The
templates of this repository use code tokens for `if (...) { ... }`
control flow, so the modelled statement language is: string literals,
identifiers, compound assignment `+=`, `if` blocks, empty statements and
`;` sequencing.  String values are the only value kind. -/

/-- A value of the modelled JavaScript subset: a string or a boolean (the
keyword literals `true` / `false`). -/
inductive JsVal where
  | str (s : List Char)
  | bool (b : Bool)
deriving DecidableEq

/-- String coercion, as performed by `+` when one operand is a string. -/
def JsVal.toStr : JsVal → List Char
  | .str s => s
  | .bool true => "true".toList
  | .bool false => "false".toList

/-- An expression of the modelled JavaScript subset. -/
inductive JsExpr where
  | lit (v : JsVal)
  | var (name : List Char)
  | assignAdd (name : List Char) (rhs : JsExpr)
deriving DecidableEq

/-- A statement of the modelled JavaScript subset. -/
inductive JsStmt where
  | skip
  | exprStmt (e : JsExpr)
  | ifStmt (cond : JsExpr) (body : JsStmt)
  | seq (a b : JsStmt)
deriving DecidableEq

/-- Read the body of a double-quoted string literal (the opening quote is
already consumed), returning the decoded characters and the input after
the closing quote.  A raw line terminator or an unterminated literal is a
syntax error.  The single-character escapes of the language are decoded;
`\x`/`\u` escapes never occur in generated programs and are not modelled. -/
def escCharMap (c : Char) : Option (List Char) :=
  if c = 'n' then some ['\n']
  else if c = 't' then some ['\t']
  else if c = 'r' then some ['\r']
  else if c = 'b' then some ['\x08']
  else if c = 'f' then some ['\x0c']
  else if c = 'v' then some ['\x0b']
  else if c = '0' then some ['\x00']
  else if c = 'x' then none
  else if c = 'u' then none
  else if c = '\n' then some []
  else if c = '\r' then some []
  else some [c]

/-- Scan a string literal body.  See `escCharMap`. -/
def scanStr : List Char → Option (List Char × List Char)
  | [] => none
  | c :: rest =>
    if c = '"' then some ([], rest)
    else if c = '\\' then
      match rest with
      | [] => none
      | e :: rest2 => do
        let d ← escCharMap e
        let (s, r) ← scanStr rest2
        some (d ++ s, r)
    else if c = '\n' ∨ c = '\r' then none
    else do
      let (s, r) ← scanStr rest
      some (c :: s, r)

/-- Skip whitespace between the tokens of the generated program. -/
def skipWs (cs : List Char) : List Char := cs.dropWhile isWs

/-- A character that may appear in an identifier. -/
def idChar (c : Char) : Bool := c.isAlphanum || c = '_' || c = '$'

/-- Read a (nonempty) identifier. -/
def readIdent (cs : List Char) : Option (List Char × List Char) :=
  let name := cs.takeWhile idChar
  if name.isEmpty then none else some (name, cs.drop name.length)

/-- Read one expression: a string literal, or an identifier optionally
followed by `+= <expr>`. -/
def readExpr : Nat → List Char → Option (JsExpr × List Char)
  | 0, _ => none
  | fuel + 1, cs =>
    let cs' := skipWs cs
    match cs' with
    | '"' :: rest => (scanStr rest).map (fun p => (JsExpr.lit (.str p.1), p.2))
    | _ =>
      match readIdent cs' with
      | none => none
      | some (name, rest) =>
        if name = "true".toList then some (JsExpr.lit (.bool true), rest)
        else if name = "false".toList then some (JsExpr.lit (.bool false), rest)
        else
          match skipWs rest with
          | '+' :: '=' :: rest2 =>
            (readExpr fuel rest2).map (fun p => (JsExpr.assignAdd name p.1, p.2))
          | _ => some (JsExpr.var name, rest)

mutual

/-- Read one statement: an `if (<expr>) \x7b <stmts> \x7d` block or an
expression statement. -/
def readStmt : Nat → List Char → Option (JsStmt × List Char)
  | 0, _ => none
  | fuel + 1, cs =>
    let cs' := skipWs cs
    match readIdent cs' with
    | some (name, rest) =>
      if name = "if".toList then
        match skipWs rest with
        | '(' :: rest2 => do
          let (c, rest3) ← readExpr (fuel + 1) rest2
          match skipWs rest3 with
          | ')' :: rest4 =>
            match skipWs rest4 with
            | '\x7b' :: rest5 => do
              let (body, rest6) ← readStmts fuel rest5
              match rest6 with
              | '\x7d' :: rest7 => some (JsStmt.ifStmt c body, rest7)
              | _ => none
            | _ => none
          | _ => none
        | _ => none
      else
        (readExpr (fuel + 1) cs').map (fun p => (JsStmt.exprStmt p.1, p.2))
    | none =>
      (readExpr (fuel + 1) cs').map (fun p => (JsStmt.exprStmt p.1, p.2))

/-- Read a statement sequence, stopping at the end of input or at a
closing brace; `;` separates (and empty statements are allowed). -/
def readStmts : Nat → List Char → Option (JsStmt × List Char)
  | 0, _ => none
  | fuel + 1, cs =>
    let cs' := skipWs cs
    match cs' with
    | [] => some (JsStmt.skip, [])
    | '\x7d' :: _ => some (JsStmt.skip, cs')
    | ';' :: rest => readStmts fuel rest
    | _ => do
      let (s, r) ← readStmt fuel cs'
      let (ss, r') ← readStmts fuel r
      some (JsStmt.seq s ss, r')

end

/-- Parse a whole generated program; the input must be consumed entirely. -/
def readProgram (code : List Char) : Option JsStmt :=
  match readStmts (code.length + 1) code with
  | some (s, []) => some s
  | _ => none

example : readProgram "o += \"Hello, \";o +=  name ;o += \"!\"".toList =
    some (.seq (.exprStmt (.assignAdd "o".toList (.lit (.str "Hello, ".toList))))
      (.seq (.exprStmt (.assignAdd "o".toList (.var "name".toList)))
        (.seq (.exprStmt (.assignAdd "o".toList (.lit (.str "!".toList)))) .skip))) := by
  decide

/-- A JavaScript object modelled as a finite partial map. -/
def JsObj := List Char → Option JsVal

/-- The empty object. -/
def emptyObj : JsObj := fun _ => none

/-- Property assignment `obj[k] = v`. -/
def updateObj (o : JsObj) (k : List Char) (v : JsVal) : JsObj :=
  fun k' => if k' = k then some v else o k'

/-- The heap visible to one render call: the caller's data object and the
vm context object.  Code run by `vm.runInContext` resolves every name on
the context object; it cannot reach the caller's object. -/
structure VmWorld where
  caller : List (List Char × JsVal)
  ctx : JsObj

/-- `{ o: "", ...data }`: the accumulator seeded to the empty string, then
every data pair assigned in order (a later pair or a data key `o`
overrides). -/
def buildCtx (data : List (List Char × JsVal)) : JsObj :=
  data.foldl (fun o kv => updateObj o kv.1 kv.2) (updateObj emptyObj ['o'] (.str []))

/-- Truthiness: the empty string and `false` are falsy, the rest truthy. -/
def truthy : JsVal → Bool
  | .str v => !v.isEmpty
  | .bool b => b

/-- Evaluate an expression.  A variable reference resolves on the context
object (a miss is a ReferenceError); `n += e` reads `n`, evaluates `e`,
concatenates and assigns back to the context object. -/
def evalExpr : JsExpr → VmWorld → Except String JsVal × VmWorld
  | .lit s, w => (.ok s, w)
  | .var n, w =>
    match w.ctx n with
    | some v => (.ok v, w)
    | none => (.error "ReferenceError", w)
  | .assignAdd n rhs, w =>
    match w.ctx n with
    | none => (.error "ReferenceError", w)
    | some old =>
      match evalExpr rhs w with
      | (.error e, w') => (.error e, w')
      | (.ok v, w') =>
        match old, v with
        | .bool _, .bool _ => (.error "UnmodelledAddition", w')
        | _, _ =>
          let nv : JsVal := .str (old.toStr ++ v.toStr)
          (.ok nv, { w' with ctx := updateObj w'.ctx n nv })

/-- Execute a statement.  An expression statement discards its value; an
`if` runs its body when the condition is truthy; errors abort. -/
def evalStmt : JsStmt → VmWorld → Except String Unit × VmWorld
  | .skip, w => (.ok (), w)
  | .exprStmt e, w =>
    match evalExpr e w with
    | (.ok _, w') => (.ok (), w')
    | (.error e', w') => (.error e', w')
  | .ifStmt c b, w =>
    match evalExpr c w with
    | (.ok v, w') => if truthy v then evalStmt b w' else (.ok (), w')
    | (.error e', w') => (.error e', w')
  | .seq a b, w =>
    match evalStmt a w with
    | (.ok _, w') => evalStmt b w'
    | (.error e', w') => (.error e', w')

/-- `miniEjs(str, data)`, together with the caller's data object as left
after the call: compile the template, parse the generated program, run it
in a fresh context seeded from the data mapping, and return the final
accumulator `o`. -/
def miniEjsCore (s : List Char) (data : List (List Char × JsVal)) :
    Except String JsVal × List (List Char × JsVal) :=
  match compileTemplate s with
  | .error e => (.error e, data)
  | .ok code =>
    match readProgram code with
    | none => (.error "SyntaxError", data)
    | some prog =>
      let w0 : VmWorld := { caller := data, ctx := buildCtx data }
      let (r, w1) := evalStmt prog w0
      (r.map (fun _ => (w1.ctx ['o']).getD (.str [])), w1.caller)

/-- The rendered output of `miniEjs(str, data)` (or the raised error). -/
def miniEjs (s : List Char) (data : List (List Char × JsVal)) :
    Except String JsVal :=
  (miniEjsCore s data).1

/-! Fidelity checks against the repository's own test suite. -/

example : miniEjs "Hello, <%= name %>!".toList [("name".toList, .str "World".toList)] =
    .ok (.str "Hello, World!".toList) := by decide

example : miniEjs "Hello<% if (name) \x7b %>, <%=name%><% \x7d %>!".toList
    [("name".toList, .str "World".toList)] = .ok (.str "Hello, World!".toList) := by decide

example : miniEjs "Hello<% if (name) \x7b %>, <%=name%><% \x7d %>!".toList
    [("name".toList, .str [])] = .ok (.str "Hello!".toList) := by decide

example : miniEjs "<%=foo%>   Bar".toList [("foo".toList, .str "Foo".toList)] =
    .ok (.str "Foo   Bar".toList) := by decide

example : miniEjs "<%=foo-%>   Bar".toList [("foo".toList, .str "Foo".toList)] =
    .ok (.str "FooBar".toList) := by decide

example : miniEjs "Foo <% if (true) \x7b\x7d %> Bar".toList [] =
    .ok (.str "Foo  Bar".toList) := by decide

example : miniEjs "Foo <% if (true) \x7b\x7d -%> Bar".toList [] =
    .ok (.str "Foo Bar".toList) := by decide

example : miniEjs "Bar   <%-=foo%>".toList [("foo".toList, .str "Foo".toList)] =
    .ok (.str "BarFoo".toList) := by decide

example : miniEjs "Bar <%-=foo-%> Baz".toList [("foo".toList, .str "Foo".toList)] =
    .ok (.str "BarFooBaz".toList) := by decide

example : miniEjs "X<% if (foo) \x7b\x7d -%><%- if (foo) \x7b\x7d %>X".toList
    [("foo".toList, .str "Foo".toList)] = .ok (.str "XX".toList) := by decide

example : miniEjs "\n    <%- %>Foo\n    <%  -%>\n  ".toList [] =
    .ok (.str "Foo\n    ".toList) := by decide

example : miniEjs "What \"Foo\" Bar".toList [] = .ok (.str "What \"Foo\" Bar".toList) := by
  decide

/-! ## C1: concrete rendering scenarios -/

/-- C1: the spec's concrete rendering scenarios hold: a print token appends
the evaluated expression (`Hello, <%= name %>!` with `name = "World"`
renders `Hello, World!`), and code tokens drive control flow across tokens
(`Hello<% if (name) { %>, <%=name%><% } %>!` renders `Hello, World!` for
`name = "World"` and `Hello!` for `name = ""`). -/
theorem c1_concrete_scenarios :
    miniEjs "Hello, <%= name %>!".toList [("name".toList, .str "World".toList)] =
      .ok (.str "Hello, World!".toList) ∧
    miniEjs "Hello<% if (name) \x7b %>, <%=name%><% \x7d %>!".toList
      [("name".toList, .str "World".toList)] = .ok (.str "Hello, World!".toList) ∧
    miniEjs "Hello<% if (name) \x7b %>, <%=name%><% \x7d %>!".toList
      [("name".toList, .str [])] = .ok (.str "Hello!".toList) :=
  ⟨by decide, by decide, by decide⟩

/-! ## C8: determinism and isolation across calls -/

/-- A sequence of render calls, in order. -/
def renderBatch (calls : List (List Char × List (List Char × JsVal))) :
    List (Except String JsVal) :=
  calls.map (fun c => miniEjs c.1 c.2)

/-- C8: render is deterministic and isolated across calls: in any call
history, the output of a call is exactly `miniEjs` of its own template and
data — it does not depend on the calls made before (or after) it, and two
calls with the same inputs give the same output in any two histories. -/
theorem c8_deterministic_isolated
    (pre post pre' post' : List (List Char × List (List Char × JsVal)))
    (s : List Char) (d : List (List Char × JsVal)) :
    (renderBatch (pre ++ (s, d) :: post)).get? pre.length = some (miniEjs s d) ∧
    (renderBatch (pre ++ (s, d) :: post)).get? pre.length =
      (renderBatch (pre' ++ (s, d) :: post')).get? pre'.length := by
  have key : ∀ (l r : List (List Char × List (List Char × JsVal))),
      (renderBatch (l ++ (s, d) :: r)).get? l.length = some (miniEjs s d) := by
    intro l r
    induction l with
    | nil => simp [renderBatch]
    | cons x xs ih => simpa [renderBatch] using ih
  exact ⟨key pre post, (key pre post).trans (key pre' post').symm⟩

/-! ## C10: the caller's data mapping is never mutated -/

/-- Expression evaluation reads and writes only the context object. -/
theorem evalExpr_caller (e : JsExpr) (w : VmWorld) :
    (evalExpr e w).2.caller = w.caller := by
  induction e generalizing w with
  | lit v => rfl
  | var n =>
    unfold evalExpr
    cases w.ctx n <;> rfl
  | assignAdd n rhs ih =>
    unfold evalExpr
    cases hctx : w.ctx n with
    | none => rfl
    | some old =>
      cases hev : evalExpr rhs w with
      | mk r w' =>
        have h := ih w
        rw [hev] at h
        cases r with
        | error e' => simpa using h
        | ok v =>
          cases old <;> cases v <;> simp_all

/-- Statement execution reads and writes only the context object. -/
theorem evalStmt_caller (st : JsStmt) (w : VmWorld) :
    (evalStmt st w).2.caller = w.caller := by
  induction st generalizing w with
  | skip => rfl
  | exprStmt e =>
    unfold evalStmt
    have h := evalExpr_caller e w
    cases hev : evalExpr e w with
    | mk r w' =>
      rw [hev] at h
      cases r <;> simpa using h
  | ifStmt c b ih =>
    unfold evalStmt
    have h := evalExpr_caller c w
    cases hev : evalExpr c w with
    | mk r w' =>
      rw [hev] at h
      cases r with
      | error e' => simpa using h
      | ok v =>
        by_cases ht : truthy v
        · simpa [ht] using (ih w').trans h
        · simpa [ht] using h
  | seq a b iha ihb =>
    unfold evalStmt
    have ha := iha w
    cases hev : evalStmt a w with
    | mk r w' =>
      rw [hev] at ha
      cases r with
      | error e' => simpa using ha
      | ok _ => simpa using (ihb w').trans ha

/-- C10: render never mutates the caller-supplied data mapping — the vm
context is a fresh shallow copy of it, template statements assign only to
the context object, and the caller's object is unchanged after the call,
whether the call succeeds or throws. -/
theorem c10_data_not_mutated (s : List Char) (d : List (List Char × JsVal)) :
    (miniEjsCore s d).2 = d := by
  rcases hc : compileTemplate s with e | code
  · simp [miniEjsCore, hc]
  · rcases hp : readProgram code with _ | prog
    · simp [miniEjsCore, hc, hp]
    · have h := evalStmt_caller prog { caller := d, ctx := buildCtx d }
      rcases hev : evalStmt prog { caller := d, ctx := buildCtx d } with ⟨r, w1⟩
      rw [hev] at h
      simpa [miniEjsCore, hc, hp, hev] using h

/-! ## C5: the initial environment and the accumulator -/

/-- The binding that assigning the pairs of `d` in order (as object spread
does) leaves for key `k`, starting from `base`: the last pair with key `k`
wins, else `base`. -/
def lastGetFrom (k : List Char) (d : List (List Char × JsVal))
    (base : Option JsVal) : Option JsVal :=
  d.foldl (fun acc kv => if k = kv.1 then some kv.2 else acc) base

/-- The data mapping's own binding for `k` (last pair wins). -/
def lastGet (d : List (List Char × JsVal)) (k : List Char) : Option JsVal :=
  lastGetFrom k d none

theorem foldl_updateObj_apply (d : List (List Char × JsVal)) (o0 : JsObj)
    (k : List Char) :
    (d.foldl (fun o kv => updateObj o kv.1 kv.2) o0) k = lastGetFrom k d (o0 k) := by
  induction d generalizing o0 with
  | nil => rfl
  | cons kv d ih =>
    rw [List.foldl_cons, ih]
    rfl

theorem buildCtx_apply (d : List (List Char × JsVal)) (k : List Char) :
    buildCtx d k = lastGetFrom k d (if k = ['o'] then some (.str []) else none) :=
  foldl_updateObj_apply d _ k

theorem lastGetFrom_eq (k : List Char) (d : List (List Char × JsVal))
    (base : Option JsVal) :
    lastGetFrom k d base =
      (match lastGet d k with
        | some v => some v
        | none => base) := by
  induction d generalizing base with
  | nil => rfl
  | cons kv d ih =>
    have h1 : lastGetFrom k (kv :: d) base =
        lastGetFrom k d (if k = kv.1 then some kv.2 else base) := rfl
    have h2 : lastGet (kv :: d) k =
        lastGetFrom k d (if k = kv.1 then some kv.2 else none) := rfl
    rw [h1, h2, ih, ih]
    cases hl : lastGet d k with
    | some v => rfl
    | none =>
      by_cases hk : k = kv.1 <;> simp [hk]

/-- C5 counterexample: the claim fails when the data mapping itself binds
the accumulator name `o` — `{ o: "", ...data }` lets the data value
override the empty-string initialisation, so rendering the empty template
with `{o: "X"}` returns `"X"`, not the (empty) literal text. -/
theorem c5_counterexample :
    miniEjs [] [(['o'], JsVal.str ['X'])] = .ok (.str ['X']) ∧
    JsVal.str ['X'] ≠ JsVal.str [] :=
  ⟨by decide, by decide⟩

/-- C5 (amended): the fresh environment holds exactly the data mapping's
pairs layered over an accumulator `o` initialised to the empty string —
the data pair wins when the mapping itself binds `o` (spread after `o`),
the last pair wins for a repeated key — and for every data mapping that
does not bind `o`, rendering the empty template yields the empty string. -/
theorem c5_env_and_empty_template (d : List (List Char × JsVal)) (k : List Char) :
    buildCtx d k =
      (match lastGet d k with
        | some v => some v
        | none => if k = ['o'] then some (JsVal.str []) else none) ∧
    (lastGet d ['o'] = none → miniEjs [] d = .ok (.str [])) := by
  constructor
  · rw [buildCtx_apply, lastGetFrom_eq]
  · intro ho
    have hctx : buildCtx d ['o'] = some (JsVal.str []) := by
      rw [buildCtx_apply, lastGetFrom_eq, ho]
      simp
    have hcomp : compileTemplate [] =
        .ok ('o' :: ' ' :: '+' :: '=' :: ' ' :: '"' :: '"' :: []) := by decide
    have hread : readProgram ('o' :: ' ' :: '+' :: '=' :: ' ' :: '"' :: '"' :: []) =
        some (.seq (.exprStmt (.assignAdd ['o'] (.lit (.str [])))) .skip) := by decide
    unfold miniEjs miniEjsCore
    simp [hcomp, hread, evalStmt, evalExpr, hctx, JsVal.toStr, updateObj, Except.map]

/-- Witness for `c5_env_and_empty_template` at a concrete data mapping. -/
theorem c5_env_witness :
    buildCtx [(['x'], JsVal.str ['y'])] ['x'] = some (JsVal.str ['y']) ∧
    miniEjs [] [(['x'], JsVal.str ['y'])] = .ok (JsVal.str []) := by
  have h := c5_env_and_empty_template [(['x'], JsVal.str ['y'])] ['x']
  exact ⟨h.1.trans (by decide), h.2 (by decide)⟩

/-! ## C6: print inserts, code is evaluated for effect only -/

/-- C6: a print token compiles to `o += <expr>` — its value is appended to
the accumulator — while a code token compiles to its bare statement text,
whose evaluated value is discarded: for every value of `x` (including
non-empty ones), `A<%x%>B` renders `AB` while `A<%=x%>B` renders
`A` ++ x ++ `B`. -/
theorem c6_print_appends_code_discards (v : List Char) (tb tf : Bool)
    (s : List Char) :
    compileToken (Token.print v tb tf) = "o += ".toList ++ v ∧
    compileToken (Token.code v tb tf) = v ∧
    miniEjs "A<%x%>B".toList [(['x'], JsVal.str s)] = .ok (.str "AB".toList) ∧
    miniEjs "A<%=x%>B".toList [(['x'], JsVal.str s)] =
      .ok (.str ('A' :: (s ++ ['B']))) :=
  ⟨rfl, rfl, rfl, rfl⟩

/-! ## C2: literal-only templates render unchanged (escaping) -/

/-- Whether any delimiter occurs anywhere in `t` (so the split is trivial
exactly when this is false). -/
def hasDelim (t : List Char) : Bool :=
  (List.range t.length).any (fun i => (matchDelim (t.drop i)).isSome)

theorem matchDelim_nil : matchDelim [] = none := by decide

theorem matchDelim_none_of_hasDelim_false {t : List Char}
    (h : hasDelim t = false) : ∀ i, matchDelim (t.drop i) = none := by
  intro i
  by_cases hi : i < t.length
  · cases hm : matchDelim (t.drop i) with
    | none => rfl
    | some dm =>
      exfalso
      have hmem : i ∈ List.range t.length := List.mem_range.mpr hi
      have := List.any_eq_false.mp h i hmem
      rw [hm] at this
      simp at this
  · rw [List.drop_eq_nil_of_le (Nat.le_of_not_lt hi)]
    exact matchDelim_nil

theorem splitGo_no_delim (fuel : Nat) :
    ∀ t acc, (∀ i, matchDelim (t.drop i) = none) →
      splitGo fuel t acc = [acc.reverse ++ t] := by
  induction fuel with
  | zero => intro t acc _; rfl
  | succ fuel ih =>
    intro t acc h
    cases t with
    | nil => simp [splitGo]
    | cons c rest =>
      have h0 := h 0
      rw [List.drop_zero] at h0
      rw [splitGo, h0]
      rw [ih rest (c :: acc) (fun i => by
        have := h (i + 1)
        rwa [List.drop_succ_cons] at this)]
      simp

theorem splitTemplate_no_delim (t : List Char) (h : hasDelim t = false) :
    splitTemplate t = [t] := by
  unfold splitTemplate
  rw [splitGo_no_delim _ _ _ (matchDelim_none_of_hasDelim_false h)]
  simp

theorem tokenize_no_delim (t : List Char) (h : hasDelim t = false) :
    tokenize t = .ok [Token.text t] := by
  have h0 := matchDelim_none_of_hasDelim_false h 0
  rw [List.drop_zero] at h0
  have hn1 : ¬(t = oCode ∨ t = oCodeT) := by
    rintro (rfl | rfl) <;> exact absurd h0 (by decide)
  have hn2 : ¬(t = oPrint ∨ t = oPrintT) := by
    rintro (rfl | rfl) <;> exact absurd h0 (by decide)
  unfold tokenize
  rw [splitTemplate_no_delim t h]
  simp [tokenizePieces, hn1, hn2, Except.map]

theorem trimPass_single_text (v : List Char) :
    trimPass [Token.text v] = [Token.text v] := rfl

theorem intercalate_singleton (sep : List Char) (x : List Char) :
    List.intercalate sep [x] = x := by
  simp [List.intercalate]

theorem compileTemplate_no_delim (t : List Char) (h : hasDelim t = false) :
    compileTemplate t = .ok ("o += \"".toList ++ escapeText t ++ ['"']) := by
  unfold compileTemplate
  rw [tokenize_no_delim t h]
  simp [Except.map, trimPass_single_text, compileToken, intercalate_singleton]

theorem replaceNewlines_cons_nn (c : Char) (t : List Char) (h1 : c ≠ '\r')
    (h2 : c ≠ '\n') : replaceNewlines (c :: t) = c :: replaceNewlines t := by
  cases t with
  | nil => simp [replaceNewlines, h2]
  | cons d t' => simp [replaceNewlines, h1, h2]

theorem replaceNewlines_cons_lf (t : List Char) :
    replaceNewlines ('\n' :: t) = '\\' :: 'n' :: replaceNewlines t := by
  cases t with
  | nil => simp [replaceNewlines]
  | cons d t' => simp [replaceNewlines]

theorem escapeText_cons_quote (t : List Char) :
    escapeText ('"' :: t) = '\\' :: '"' :: escapeText t := by
  unfold escapeText
  rw [show replaceQuotes ('"' :: t) = '\\' :: '"' :: replaceQuotes t from by
    simp [replaceQuotes]]
  rw [replaceNewlines_cons_nn '\\' _ (by decide) (by decide)]
  rw [replaceNewlines_cons_nn '"' _ (by decide) (by decide)]

theorem escapeText_cons_lf (t : List Char) :
    escapeText ('\n' :: t) = '\\' :: 'n' :: escapeText t := by
  unfold escapeText
  rw [show replaceQuotes ('\n' :: t) = '\n' :: replaceQuotes t from by
    simp [replaceQuotes]]
  exact replaceNewlines_cons_lf _

theorem escapeText_cons_other (c : Char) (t : List Char) (h1 : c ≠ '"')
    (h2 : c ≠ '\n') (h3 : c ≠ '\r') :
    escapeText (c :: t) = c :: escapeText t := by
  unfold escapeText
  rw [show replaceQuotes (c :: t) = c :: replaceQuotes t from by
    simp [replaceQuotes, h1]]
  exact replaceNewlines_cons_nn c _ h3 h2

theorem scanStr_escape (t : List Char) (r : List Char) (hbs : '\\' ∉ t)
    (hcr : '\r' ∉ t) : scanStr (escapeText t ++ '"' :: r) = some (t, r) := by
  induction t with
  | nil =>
    rw [show escapeText [] = [] from rfl, List.nil_append, scanStr.eq_def]
    simp
  | cons c t ih =>
    have hbs' : '\\' ∉ t := fun hm => hbs (List.mem_cons_of_mem _ hm)
    have hcr' : '\r' ∉ t := fun hm => hcr (List.mem_cons_of_mem _ hm)
    have hcbs : c ≠ '\\' := fun he => hbs (he ▸ List.mem_cons_self _ _)
    have hccr : c ≠ '\r' := fun he => hcr (he ▸ List.mem_cons_self _ _)
    by_cases hq : c = '"'
    · subst hq
      rw [escapeText_cons_quote]
      have e1 : escCharMap '"' = some ['"'] := by decide
      simp [scanStr, e1, ih hbs' hcr']
    · by_cases hn : c = '\n'
      · subst hn
        rw [escapeText_cons_lf]
        have e2 : escCharMap 'n' = some ['\n'] := by decide
        simp [scanStr, e2, ih hbs' hcr']
      · rw [escapeText_cons_other c t hq hn hccr]
        rw [scanStr.eq_def]
        simp [hq, hcbs, hn, hccr, ih hbs' hcr']

theorem isWs_space : isWs ' ' = true := by decide
theorem isWs_o : isWs 'o' = false := by decide
theorem isWs_plus : isWs '+' = false := by decide
theorem isWs_quote : isWs '"' = false := by decide
theorem idChar_o : idChar 'o' = true := by decide
theorem idChar_space : idChar ' ' = false := by decide

theorem readProgram_literal (t : List Char) (hbs : '\\' ∉ t) (hcr : '\r' ∉ t) :
    readProgram ("o += \"".toList ++ escapeText t ++ ['"']) =
      some (.seq (.exprStmt (.assignAdd ['o'] (.lit (.str t)))) .skip) := by
  have htl : "o += \"".toList = ['o', ' ', '+', '=', ' ', '"'] := by decide
  have hscan : scanStr (escapeText t ++ ['"']) = some (t, []) :=
    scanStr_escape t [] hbs hcr
  have hno : (['o'] : List Char) ≠ "true".toList := by decide
  have hno' : (['o'] : List Char) ≠ "false".toList := by decide
  have hnif : (['o'] : List Char) ≠ "if".toList := by decide
  rw [htl, List.append_assoc]
  simp only [List.cons_append, List.nil_append]
  set E := escapeText t with hE
  have hready : readIdent ('o' :: ' ' :: '+' :: '=' :: ' ' :: '"' :: (E ++ ['"'])) =
      some (['o'], ' ' :: '+' :: '=' :: ' ' :: '"' :: (E ++ ['"'])) := by
    simp [readIdent, List.takeWhile_cons, idChar_o, idChar_space]
  have hskip0 : skipWs ('o' :: ' ' :: '+' :: '=' :: ' ' :: '"' :: (E ++ ['"'])) =
      'o' :: ' ' :: '+' :: '=' :: ' ' :: '"' :: (E ++ ['"']) := by
    simp [skipWs, List.dropWhile_cons, isWs_o]
  have hskip1 : skipWs (' ' :: '+' :: '=' :: ' ' :: '"' :: (E ++ ['"'])) =
      '+' :: '=' :: ' ' :: '"' :: (E ++ ['"']) := by
    simp [skipWs, List.dropWhile_cons, isWs_space, isWs_plus]
  have hskip2 : skipWs (' ' :: '"' :: (E ++ ['"'])) = '"' :: (E ++ ['"']) := by
    simp [skipWs, List.dropWhile_cons, isWs_space, isWs_quote]
  have h2 : readExpr (E.length + 6) (' ' :: '"' :: (E ++ ['"'])) =
      some (JsExpr.lit (.str t), []) := by
    rw [show E.length + 6 = (E.length + 5) + 1 from rfl, readExpr]
    simp [hskip2, hscan]
  have h3 : readExpr ((E.length + 6) + 1)
      ('o' :: ' ' :: '+' :: '=' :: ' ' :: '"' :: (E ++ ['"'])) =
      some (JsExpr.assignAdd ['o'] (.lit (.str t)), []) := by
    rw [readExpr]
    simp [hskip0, hready, hno, hno', hskip1, h2]
  have h4 : readStmt (E.length + 7)
      ('o' :: ' ' :: '+' :: '=' :: ' ' :: '"' :: (E ++ ['"'])) =
      some (JsStmt.exprStmt (.assignAdd ['o'] (.lit (.str t))), []) := by
    rw [show E.length + 7 = (E.length + 6) + 1 from rfl, readStmt]
    simp [hskip0, hready, hnif, h3]
  have h6 : readStmts (E.length + 7) [] = some (JsStmt.skip, []) := by
    rw [show E.length + 7 = (E.length + 6) + 1 from rfl, readStmts]
    simp [skipWs]
  have h5 : readStmts ((E.length + 7) + 1)
      ('o' :: ' ' :: '+' :: '=' :: ' ' :: '"' :: (E ++ ['"'])) =
      some (JsStmt.seq (.exprStmt (.assignAdd ['o'] (.lit (.str t)))) .skip, []) := by
    rw [readStmts]
    simp [hskip0, h4, h6]
  have hlen : ('o' :: ' ' :: '+' :: '=' :: ' ' :: '"' :: (E ++ ['"'])).length + 1 =
      (E.length + 7) + 1 := by
    simp [List.length_append]
  unfold readProgram
  rw [hlen, h5]

/-- C2 counterexample: Text-token escaping handles quotes and LF but not
backslashes (nor CR): the two-character template backslash-`n` is embedded
unescaped in the generated string literal, which evaluates to a single
newline — the rendered output differs from the template.  A CRLF template
is likewise normalised to a bare LF. -/
theorem c2_counterexample :
    miniEjs ['\\', 'n'] [] = .ok (.str ['\n']) ∧
    JsVal.str ['\n'] ≠ JsVal.str ['\\', 'n'] ∧
    miniEjs ['a', '\r', '\n', 'b'] [] = .ok (.str ['a', '\n', 'b']) ∧
    JsVal.str ['a', '\n', 'b'] ≠ JsVal.str ['a', '\r', '\n', 'b'] :=
  ⟨by decide, by decide, by decide, by decide⟩

/-- C2 (amended): for every template containing no delimiter substring, no
backslash and no carriage return, and every data mapping that does not
bind the accumulator name `o`, render returns the template text unchanged
— the escaping of quotes and line feeds preserves the emitted content
exactly. -/
theorem c2_literal_render (t : List Char) (d : List (List Char × JsVal))
    (h : hasDelim t = false) (hbs : '\\' ∉ t) (hcr : '\r' ∉ t)
    (ho : lastGet d ['o'] = none) :
    miniEjs t d = .ok (.str t) := by
  have hctx : buildCtx d ['o'] = some (JsVal.str []) := by
    rw [buildCtx_apply, lastGetFrom_eq, ho]
    simp
  have hcomp := compileTemplate_no_delim t h
  have hread := readProgram_literal t hbs hcr
  have hcons : "o += \"".toList ++ escapeText t ++ ['"'] =
      'o' :: ' ' :: '+' :: '=' :: ' ' :: '"' :: (escapeText t ++ ['"']) := by
    rw [show "o += \"".toList = ['o', ' ', '+', '=', ' ', '"'] from by decide]
    simp
  rw [hcons] at hread
  unfold miniEjs miniEjsCore
  simp [hcomp, hcons, hread, evalStmt, evalExpr, hctx, JsVal.toStr, updateObj,
    Except.map]

/-- Witness for `c2_literal_render`: a template with embedded quotes and a
newline renders unchanged. -/
theorem c2_literal_witness :
    hasDelim "What \"Foo\"\n Bar".toList = false ∧
    miniEjs "What \"Foo\"\n Bar".toList [] = .ok (.str "What \"Foo\"\n Bar".toList) :=
  ⟨by decide,
    c2_literal_render "What \"Foo\"\n Bar".toList [] (by decide) (by decide)
      (by decide) (by decide)⟩

/-! ## C9: stray closers -/

/-- C9 counterexample: the claim's universal form fails — a template that
contains a stray closer piece (here `%>` at piece index 1, preceded only
by literal text) but also an unrelated unclosed opener still raises, so
"for every template containing a stray closer, tokenize does not raise" is
false as stated. -/
theorem c9_counterexample :
    splitTemplate "a%>b<%c".toList =
      ["a".toList, cPlain, "b".toList, oCode, "c".toList] ∧
    tokenize "a%>b<%c".toList = .error unclosedMsg ∧
    miniEjs "a%>b<%c".toList [] = .error unclosedMsg :=
  ⟨by decide, by decide, by decide⟩

/-- C9 (amended): a stray closer is never itself an error: whenever the
tokenizer walk reaches a `%>` or `-%>` piece that was not consumed as the
closer of a preceding opener, it turns it into an ordinary text token and
continues; in templates whose remaining delimiters are well formed the
stray closer is rendered verbatim. -/
theorem miniEjs_eval (s : List Char) (d : List (List Char × JsVal))
    (code : List Char) (prog : JsStmt)
    (hcomp : compileTemplate s = .ok code) (hread : readProgram code = some prog) :
    miniEjs s d = (evalStmt prog { caller := d, ctx := buildCtx d }).1.map
      (fun _ =>
        ((evalStmt prog { caller := d, ctx := buildCtx d }).2.ctx ['o']).getD
          (.str [])) := by
  unfold miniEjs miniEjsCore
  rw [hcomp]
  simp only [hread]

theorem c9_stray_closer_text (p : List Char) (rest : List (List Char))
    (hp : p = cPlain ∨ p = cTrim) :
    tokenizePieces (p :: rest) = (Token.text p :: ·) <$> tokenizePieces rest ∧
    (∀ d, lastGet d ['o'] = none →
      miniEjs "a%>b".toList d = .ok (.str "a%>b".toList) ∧
      miniEjs "a-%>b".toList d = .ok (.str "a-%>b".toList)) := by
  constructor
  · rw [tokenizePieces.eq_def]
    rcases hp with rfl | rfl
    · simp [show ¬(cPlain = oCode ∨ cPlain = oCodeT) from by decide,
        show ¬(cPlain = oPrint ∨ cPlain = oPrintT) from by decide]
    · simp [show ¬(cTrim = oCode ∨ cTrim = oCodeT) from by decide,
        show ¬(cTrim = oPrint ∨ cTrim = oPrintT) from by decide]
  · intro d ho
    have hctx : buildCtx d ['o'] = some (JsVal.str []) := by
      rw [buildCtx_apply, lastGetFrom_eq, ho]
      simp
    constructor
    · rw [miniEjs_eval "a%>b".toList d "o += \"a\";o += \"%>\";o += \"b\"".toList
        (.seq (.exprStmt (.assignAdd ['o'] (.lit (.str ['a']))))
          (.seq (.exprStmt (.assignAdd ['o'] (.lit (.str ['%', '>']))))
            (.seq (.exprStmt (.assignAdd ['o'] (.lit (.str ['b'])))) .skip)))
        (by decide) (by decide)]
      simp [evalStmt, evalExpr, hctx, JsVal.toStr, updateObj, Except.map]
    · rw [miniEjs_eval "a-%>b".toList d "o += \"a\";o += \"-%>\";o += \"b\"".toList
        (.seq (.exprStmt (.assignAdd ['o'] (.lit (.str ['a']))))
          (.seq (.exprStmt (.assignAdd ['o'] (.lit (.str ['-', '%', '>']))))
            (.seq (.exprStmt (.assignAdd ['o'] (.lit (.str ['b'])))) .skip)))
        (by decide) (by decide)]
      simp [evalStmt, evalExpr, hctx, JsVal.toStr, updateObj, Except.map]

/-- Witness for `c9_stray_closer_text` at a concrete piece list and data. -/
theorem c9_stray_witness :
    tokenizePieces [cPlain] = .ok [Token.text cPlain] ∧
    miniEjs "a%>b".toList [] = .ok (.str "a%>b".toList) := by
  have h := c9_stray_closer_text cPlain [] (Or.inl rfl)
  exact ⟨by rw [h.1]; decide, (h.2 [] (by decide)).1⟩

/-! ## C7: tokenization is lossless -/

/-- Reverse of tokenization: concatenate text values verbatim and re-wrap
each code/print token in the delimiters determined by its kind and flags. -/
def untokenize : List Token → List Char
  | [] => []
  | .text v :: rest => v ++ untokenize rest
  | .code v tb tf :: rest =>
    (if tb then oCodeT else oCode) ++ v ++ (if tf then cTrim else cPlain) ++
      untokenize rest
  | .print v tb tf :: rest =>
    (if tb then oPrintT else oPrint) ++ v ++ (if tf then cTrim else cPlain) ++
      untokenize rest

theorem isPrefixOf_append (d cs : List Char) (h : d.isPrefixOf cs) :
    ∃ r, cs = d ++ r := by
  induction d generalizing cs with
  | nil => exact ⟨cs, rfl⟩
  | cons a d ih =>
    cases cs with
    | nil => simp [List.isPrefixOf] at h
    | cons b cs =>
      simp only [List.isPrefixOf, Bool.and_eq_true, beq_iff_eq] at h
      obtain ⟨rfl, h2⟩ := h
      obtain ⟨r, hr⟩ := ih cs h2
      exact ⟨r, by rw [hr]; rfl⟩

theorem splitGo_join (fuel : Nat) :
    ∀ cs acc, (splitGo fuel cs acc).flatten = acc.reverse ++ cs := by
  induction fuel with
  | zero => intro cs acc; simp [splitGo]
  | succ fuel ih =>
    intro cs acc
    cases cs with
    | nil => simp [splitGo]
    | cons c rest =>
      rw [splitGo]
      cases hm : matchDelim (c :: rest) with
      | none => simp [ih, List.append_assoc]
      | some dm =>
        have hm' : delims.find? (fun d => d.isPrefixOf (c :: rest)) = some dm := hm
        have hmem : dm ∈ delims := List.mem_of_find?_eq_some hm'
        have hpre' := List.find?_some hm'
        have hpre : dm.isPrefixOf (c :: rest) := hpre'
        have h1 : 1 ≤ dm.length := by fin_cases hmem <;> decide
        obtain ⟨r, hr⟩ := isPrefixOf_append dm (c :: rest) hpre
        have hdrop : rest.drop (dm.length - 1) = r := by
          have h2 : (c :: rest).drop dm.length = rest.drop (dm.length - 1) := by
            rw [show dm.length = (dm.length - 1) + 1 from
              (Nat.succ_pred_eq_of_pos h1).symm]
            rfl
          rw [← h2, hr, List.drop_left]
        simp [ih, hdrop, List.append_assoc, ← hr]

theorem except_map_cons_ok {tok : Token} {x : Except String (List Token)}
    {ts : List Token} (h : ((tok :: ·) <$> x) = .ok ts) :
    ∃ ts', x = .ok ts' ∧ ts = tok :: ts' := by
  cases x with
  | error e => simp [Except.map] at h
  | ok ts' =>
    simp [Except.map] at h
    exact ⟨ts', rfl, h.symm⟩

theorem tokenizePieces_untokenize (n : Nat) :
    ∀ ps ts, ps.length ≤ n → tokenizePieces ps = .ok ts →
      untokenize ts = ps.flatten := by
  induction n with
  | zero =>
    intro ps ts hlen h
    have hnil : ps = [] := List.length_eq_zero.mp (Nat.le_zero.mp hlen)
    subst hnil
    simp [tokenizePieces] at h
    subst h
    simp [untokenize]
  | succ n ih =>
    intro ps ts hlen h
    cases ps with
    | nil =>
      simp [tokenizePieces] at h
      subst h
      simp [untokenize]
    | cons p rest =>
      rw [tokenizePieces.eq_def] at h
      dsimp only [] at h
      by_cases h1 : p = oCode ∨ p = oCodeT
      · rw [if_pos h1] at h
        cases rest with
        | nil => simp at h
        | cons content rest1 =>
          cases rest1 with
          | nil => simp at h
          | cons closer rest' =>
            dsimp only [] at h
            by_cases hc1 : closer = cTrim
            · rw [if_pos hc1] at h
              obtain ⟨ts', hrec, rfl⟩ := except_map_cons_ok h
              have hts' := ih rest' ts' (by simp at hlen; omega) hrec
              subst hc1
              rcases h1 with rfl | rfl
              · simp [untokenize, hts',
                  show decide (oCode = oCodeT) = false from by decide,
                  List.append_assoc]
              · simp [untokenize, hts',
                  show decide (oCodeT = oCodeT) = true from by decide,
                  List.append_assoc]
            · by_cases hc2 : closer = cPlain
              · rw [if_neg hc1, if_pos hc2] at h
                obtain ⟨ts', hrec, rfl⟩ := except_map_cons_ok h
                have hts' := ih rest' ts' (by simp at hlen; omega) hrec
                subst hc2
                rcases h1 with rfl | rfl
                · simp [untokenize, hts',
                    show decide (oCode = oCodeT) = false from by decide,
                    List.append_assoc]
                · simp [untokenize, hts',
                    show decide (oCodeT = oCodeT) = true from by decide,
                    List.append_assoc]
              · rw [if_neg hc1, if_neg hc2] at h
                simp at h
      · rw [if_neg h1] at h
        by_cases h2 : p = oPrint ∨ p = oPrintT
        · rw [if_pos h2] at h
          cases rest with
          | nil => simp at h
          | cons content rest1 =>
            cases rest1 with
            | nil => simp at h
            | cons closer rest' =>
              dsimp only [] at h
              by_cases hc1 : closer = cTrim
              · rw [if_pos hc1] at h
                obtain ⟨ts', hrec, rfl⟩ := except_map_cons_ok h
                have hts' := ih rest' ts' (by simp at hlen; omega) hrec
                subst hc1
                rcases h2 with rfl | rfl
                · simp [untokenize, hts',
                    show decide (oPrint = oPrintT) = false from by decide,
                    List.append_assoc]
                · simp [untokenize, hts',
                    show decide (oPrintT = oPrintT) = true from by decide,
                    List.append_assoc]
              · by_cases hc2 : closer = cPlain
                · rw [if_neg hc1, if_pos hc2] at h
                  obtain ⟨ts', hrec, rfl⟩ := except_map_cons_ok h
                  have hts' := ih rest' ts' (by simp at hlen; omega) hrec
                  subst hc2
                  rcases h2 with rfl | rfl
                  · simp [untokenize, hts',
                      show decide (oPrint = oPrintT) = false from by decide,
                      List.append_assoc]
                  · simp [untokenize, hts',
                      show decide (oPrintT = oPrintT) = true from by decide,
                      List.append_assoc]
                · rw [if_neg hc1, if_neg hc2] at h
                  simp at h
        · rw [if_neg h2] at h
          obtain ⟨ts', hrec, rfl⟩ := except_map_cons_ok h
          have hts' := ih rest ts' (by simp at hlen; omega) hrec
          simp [untokenize, hts']

/-- C7: tokenization is lossless — whenever `tokenize` succeeds,
concatenating the tokens back (text values verbatim, code/print tokens
re-wrapped in the delimiters their kind and trim flags determine)
reproduces the original template exactly. -/
theorem c7_tokenize_lossless (s : List Char) (ts : List Token)
    (h : tokenize s = .ok ts) : untokenize ts = s := by
  have hu := tokenizePieces_untokenize (splitTemplate s).length (splitTemplate s)
    ts (Nat.le_refl _) h
  rw [hu]
  have hj := splitGo_join s.length s []
  simpa [splitTemplate] using hj

/-- Witness for `c7_tokenize_lossless` at a template using every token
kind and both trim flags. -/
theorem c7_witness :
    tokenize "a<%-b-%>c<%=d%>".toList =
      .ok [Token.text ['a'], Token.code ['b'] true true, Token.text ['c'],
        Token.print ['d'] false false, Token.text []] ∧
    untokenize [Token.text ['a'], Token.code ['b'] true true, Token.text ['c'],
        Token.print ['d'] false false, Token.text []] = "a<%-b-%>c<%=d%>".toList :=
  ⟨by decide, c7_tokenize_lossless _ _ (by decide)⟩

/-! ## C3: a missing or invalid closer always raises -/

/-- Whether a piece is one of the four openers. -/
def isOpener (p : List Char) : Bool :=
  p == oCode || p == oCodeT || p == oPrint || p == oPrintT

/-- Whether a piece is one of the two closers. -/
def isCloser (p : List Char) : Bool := p == cPlain || p == cTrim

/-- Whether a piece is a delimiter piece. -/
def isDelim (p : List Char) : Bool := decide (p ∈ delims)

/-- Piece `i` is an opener whose second-next piece is missing or is not a
valid closer (the claim's error condition). -/
def BadAt (ps : List (List Char)) (i : Nat) : Prop :=
  (∃ p, ps[i]? = some p ∧ isOpener p = true) ∧
  (∀ q, ps[i + 2]? = some q → isCloser q = false)

/-- No two adjacent pieces are both delimiter pieces (true of every split
output, where delimiters sit at odd indices). -/
def NoAdjDelim (ps : List (List Char)) : Prop :=
  ∀ i p q, ps[i]? = some p → ps[i + 1]? = some q →
    ¬(isDelim p = true ∧ isDelim q = true)

/-- The split output shape: a non-delimiter piece, then alternating
delimiter / non-delimiter pieces, ending in a non-delimiter piece. -/
inductive AltPieces : List (List Char) → Prop
  | last (t : List Char) (ht : isDelim t = false) : AltPieces [t]
  | cons (t d : List Char) (rest : List (List Char)) (ht : isDelim t = false)
      (hd : isDelim d = true) (hr : AltPieces rest) : AltPieces (t :: d :: rest)

/-- Adjacent characters that would begin a delimiter match. -/
def badpair (p c : Char) : Bool := (p = '<' && c = '%') || (p = '%' && c = '>')

/-- The accumulated literal piece (stored reversed) contains no adjacent
`<%` and no adjacent `%>`. -/
def noBadR : List Char → Bool
  | [] => true
  | [_] => true
  | c :: p :: t => !(badpair p c) && noBadR (p :: t)

theorem noBadR_not_delim (acc : List Char) (h : noBadR acc = true) :
    isDelim acc.reverse = false := by
  by_contra hI
  have hmem : acc.reverse ∈ delims := by
    simpa [isDelim] using hI
  simp [delims] at hmem
  rcases hmem with h6 | h6 | h6 | h6 | h6 | h6 <;>
    (rw [show acc = acc.reverse.reverse from (List.reverse_reverse acc).symm, h6] at h
     exact absurd h (by decide))

/-- The boundary invariant between the reversed accumulator and the unread
input: the last accumulated character cannot combine with the next input
character into a delimiter start. -/
def headSafe (acc cs : List Char) : Prop :=
  match acc, cs with
  | p :: _, c :: _ => badpair p c = false
  | _, _ => True

theorem splitGo_alt (fuel : Nat) :
    ∀ cs acc, cs.length ≤ fuel → noBadR acc = true → headSafe acc cs →
      AltPieces (splitGo fuel cs acc) := by
  induction fuel with
  | zero =>
    intro cs acc hlen h _
    have hnil : cs = [] := List.length_eq_zero.mp (Nat.le_zero.mp hlen)
    subst hnil
    rw [show splitGo 0 [] acc = [acc.reverse] from by simp [splitGo]]
    exact .last _ (noBadR_not_delim acc h)
  | succ fuel ih =>
    intro cs acc hlen h hs
    cases cs with
    | nil =>
      rw [show splitGo (fuel + 1) [] acc = [acc.reverse] from by simp [splitGo]]
      exact .last _ (noBadR_not_delim acc h)
    | cons c rest =>
      rw [splitGo]
      cases hm : matchDelim (c :: rest) with
      | some dm =>
        have hm' : delims.find? (fun d => d.isPrefixOf (c :: rest)) = some dm := hm
        have hmem : dm ∈ delims := List.mem_of_find?_eq_some hm'
        have hdm : isDelim dm = true := by simp [isDelim, hmem]
        refine AltPieces.cons _ _ _ (noBadR_not_delim acc h) hdm ?_
        apply ih
        · have h2 : (rest.drop (dm.length - 1)).length ≤ rest.length := by
            simp [List.length_drop]
          simp at hlen
          omega
        · rfl
        · trivial
      | none =>
        apply ih rest (c :: acc)
        · simp at hlen
          omega
        · cases acc with
          | nil => rfl
          | cons p t =>
            have hbp : badpair p c = false := hs
            simp only [noBadR, hbp, Bool.not_false, Bool.true_and]
            exact h
        · cases rest with
          | nil => trivial
          | cons r rest2 =>
            show badpair c r = false
            by_contra hbp
            have hbp' : badpair c r = true := by
              revert hbp
              cases badpair c r <;> simp
            have hn' : delims.find? (fun d => d.isPrefixOf (c :: r :: rest2)) =
                none := hm
            have hall := List.find?_eq_none.mp hn'
            simp [badpair] at hbp'
            rcases hbp' with ⟨rfl, rfl⟩ | ⟨rfl, rfl⟩
            · exact hall oCode (by simp [delims]) (by simp [List.isPrefixOf, oCode])
            · exact hall cPlain (by simp [delims]) (by simp [List.isPrefixOf, cPlain])

theorem altPieces_head (ps : List (List Char)) (h : AltPieces ps) :
    ∀ q, ps[0]? = some q → isDelim q = false := by
  intro q hq
  cases h with
  | last t ht =>
    simp at hq
    exact hq ▸ ht
  | cons t d rest ht hd hr =>
    simp at hq
    exact hq ▸ ht

theorem altPieces_noAdjDelim (ps : List (List Char)) (h : AltPieces ps) :
    NoAdjDelim ps := by
  induction h with
  | last t ht =>
    intro i p q hp hq
    cases i with
    | zero => simp at hq
    | succ i => simp at hp
  | cons t d rest ht hd hr ih =>
    intro i p q hp hq
    cases i with
    | zero =>
      simp at hp
      rintro ⟨h1, _⟩
      rw [← hp] at h1
      rw [ht] at h1
      exact Bool.false_ne_true h1
    | succ i =>
      cases i with
      | zero =>
        simp at hq
        rintro ⟨_, h2⟩
        have := altPieces_head rest hr q hq
        rw [this] at h2
        exact Bool.false_ne_true h2
      | succ i =>
        exact ih i p q (by simpa using hp) (by simpa using hq)

theorem NoAdjDelim.tail {x : List Char} {ps : List (List Char)}
    (h : NoAdjDelim (x :: ps)) : NoAdjDelim ps :=
  fun i p q hp hq => h (i + 1) p q (by simpa) (by simpa)

theorem opener_isDelim (q : List Char) (h : isOpener q = true) :
    isDelim q = true := by
  simp [isOpener] at h
  rcases h with ((rfl | rfl) | rfl) | rfl <;> decide

theorem tokenizePieces_error_of_bad (n : Nat) :
    ∀ ps i, ps.length ≤ n → NoAdjDelim ps → BadAt ps i →
      tokenizePieces ps = .error unclosedMsg := by
  induction n with
  | zero =>
    intro ps i hlen _ hbad
    have hnil : ps = [] := List.length_eq_zero.mp (Nat.le_zero.mp hlen)
    subst hnil
    obtain ⟨⟨p, hp, _⟩, _⟩ := hbad
    simp at hp
  | succ n ih =>
    intro ps i hlen hnad hbad
    cases ps with
    | nil =>
      obtain ⟨⟨p, hp, _⟩, _⟩ := hbad
      simp at hp
    | cons p rest =>
      obtain ⟨⟨po, hpo, hop⟩, hcl⟩ := hbad
      rw [tokenizePieces.eq_def]
      dsimp only []
      by_cases h1 : p = oCode ∨ p = oCodeT
      · rw [if_pos h1]
        cases rest with
        | nil => rfl
        | cons content rest1 =>
          cases rest1 with
          | nil => rfl
          | cons closer rest' =>
            dsimp only []
            by_cases hc1 : closer = cTrim
            · rw [if_pos hc1]
              cases i with
              | zero =>
                exfalso
                have hq := hcl closer (by simp)
                rw [hc1] at hq
                exact absurd hq (by decide)
              | succ i =>
                cases i with
                | zero =>
                  exfalso
                  have hpo' : content = po := by simpa using hpo
                  subst hpo'
                  have hpd : isDelim p = true := by
                    rcases h1 with rfl | rfl <;> decide
                  exact hnad 0 p content (by simp) (by simp)
                    ⟨hpd, opener_isDelim _ hop⟩
                | succ i =>
                  cases i with
                  | zero =>
                    exfalso
                    have hpo' : closer = po := by simpa using hpo
                    subst hpo'
                    rw [hc1] at hop
                    exact absurd hop (by decide)
                  | succ i =>
                    have hb' : BadAt rest' i :=
                      ⟨⟨po, by simpa using hpo, hop⟩,
                        fun q hq => hcl q (by simpa using hq)⟩
                    have he := ih rest' i (by simp at hlen; omega)
                      hnad.tail.tail.tail hb'
                    rw [he]
                    rfl
            · by_cases hc2 : closer = cPlain
              · rw [if_neg hc1, if_pos hc2]
                cases i with
                | zero =>
                  exfalso
                  have hq := hcl closer (by simp)
                  rw [hc2] at hq
                  exact absurd hq (by decide)
                | succ i =>
                  cases i with
                  | zero =>
                    exfalso
                    have hpo' : content = po := by simpa using hpo
                    subst hpo'
                    have hpd : isDelim p = true := by
                      rcases h1 with rfl | rfl <;> decide
                    exact hnad 0 p content (by simp) (by simp)
                      ⟨hpd, opener_isDelim _ hop⟩
                  | succ i =>
                    cases i with
                    | zero =>
                      exfalso
                      have hpo' : closer = po := by simpa using hpo
                      subst hpo'
                      rw [hc2] at hop
                      exact absurd hop (by decide)
                    | succ i =>
                      have hb' : BadAt rest' i :=
                        ⟨⟨po, by simpa using hpo, hop⟩,
                          fun q hq => hcl q (by simpa using hq)⟩
                      have he := ih rest' i (by simp at hlen; omega)
                        hnad.tail.tail.tail hb'
                      rw [he]
                      rfl
              · rw [if_neg hc1, if_neg hc2]
      · rw [if_neg h1]
        by_cases h2 : p = oPrint ∨ p = oPrintT
        · rw [if_pos h2]
          cases rest with
          | nil => rfl
          | cons content rest1 =>
            cases rest1 with
            | nil => rfl
            | cons closer rest' =>
              dsimp only []
              by_cases hc1 : closer = cTrim
              · rw [if_pos hc1]
                cases i with
                | zero =>
                  exfalso
                  have hq := hcl closer (by simp)
                  rw [hc1] at hq
                  exact absurd hq (by decide)
                | succ i =>
                  cases i with
                  | zero =>
                    exfalso
                    have hpo' : content = po := by simpa using hpo
                    subst hpo'
                    have hpd : isDelim p = true := by
                      rcases h2 with rfl | rfl <;> decide
                    exact hnad 0 p content (by simp) (by simp)
                      ⟨hpd, opener_isDelim _ hop⟩
                  | succ i =>
                    cases i with
                    | zero =>
                      exfalso
                      have hpo' : closer = po := by simpa using hpo
                      subst hpo'
                      rw [hc1] at hop
                      exact absurd hop (by decide)
                    | succ i =>
                      have hb' : BadAt rest' i :=
                        ⟨⟨po, by simpa using hpo, hop⟩,
                          fun q hq => hcl q (by simpa using hq)⟩
                      have he := ih rest' i (by simp at hlen; omega)
                        hnad.tail.tail.tail hb'
                      rw [he]
                      rfl
              · by_cases hc2 : closer = cPlain
                · rw [if_neg hc1, if_pos hc2]
                  cases i with
                  | zero =>
                    exfalso
                    have hq := hcl closer (by simp)
                    rw [hc2] at hq
                    exact absurd hq (by decide)
                  | succ i =>
                    cases i with
                    | zero =>
                      exfalso
                      have hpo' : content = po := by simpa using hpo
                      subst hpo'
                      have hpd : isDelim p = true := by
                        rcases h2 with rfl | rfl <;> decide
                      exact hnad 0 p content (by simp) (by simp)
                        ⟨hpd, opener_isDelim _ hop⟩
                    | succ i =>
                      cases i with
                      | zero =>
                        exfalso
                        have hpo' : closer = po := by simpa using hpo
                        subst hpo'
                        rw [hc2] at hop
                        exact absurd hop (by decide)
                      | succ i =>
                        have hb' : BadAt rest' i :=
                          ⟨⟨po, by simpa using hpo, hop⟩,
                            fun q hq => hcl q (by simpa using hq)⟩
                        have he := ih rest' i (by simp at hlen; omega)
                          hnad.tail.tail.tail hb'
                        rw [he]
                        rfl
                · rw [if_neg hc1, if_neg hc2]
        · rw [if_neg h2]
          cases i with
          | zero =>
            exfalso
            have hpo' : p = po := by simpa using hpo
            subst hpo'
            simp [isOpener] at hop
            rcases hop with ((rfl | rfl) | rfl) | rfl
            · exact h1 (Or.inl rfl)
            · exact h1 (Or.inr rfl)
            · exact h2 (Or.inl rfl)
            · exact h2 (Or.inr rfl)
          | succ i =>
            have hb' : BadAt rest i :=
              ⟨⟨po, by simpa using hpo, hop⟩, fun q hq => hcl q (by simpa using hq)⟩
            have he := ih rest i (by simp at hlen; omega) hnad.tail hb'
            rw [he]
            rfl

/-- C3: for every template in which some opener's second-next split piece
is missing or is not one of the two valid closers `%>` / `-%>` (an opener
with no closer before end of input, or a nested opener), render raises the
tokenizer's syntax error and returns no output string. -/
theorem c3_unclosed_error (s : List Char) (d : List (List Char × JsVal))
    (i : Nat) (h : BadAt (splitTemplate s) i) :
    miniEjs s d = .error unclosedMsg ∧ ∀ out, miniEjs s d ≠ .ok out := by
  have halt : AltPieces (splitTemplate s) :=
    splitGo_alt s.length s [] (Nat.le_refl _) rfl trivial
  have hnad := altPieces_noAdjDelim _ halt
  have htok : tokenizePieces (splitTemplate s) = .error unclosedMsg :=
    tokenizePieces_error_of_bad (splitTemplate s).length _ i (Nat.le_refl _)
      hnad h
  have hmain : miniEjs s d = .error unclosedMsg := by
    unfold miniEjs miniEjsCore compileTemplate tokenize
    rw [htok]
    rfl
  exact ⟨hmain, fun out hout => by rw [hmain] at hout; exact Except.noConfusion hout⟩

/-- Witness for `c3_unclosed_error`: `a<%b` has an opener at piece index 1
with no second-next piece, and rendering it raises. -/
theorem c3_witness :
    BadAt (splitTemplate "a<%b".toList) 1 ∧
    miniEjs "a<%b".toList [] = .error unclosedMsg := by
  have hbad : BadAt (splitTemplate "a<%b".toList) 1 := by
    constructor
    · exact ⟨oCode, by decide, by decide⟩
    · intro q hq
      have hn : (splitTemplate "a<%b".toList)[3]? = none := by decide
      rw [hn] at hq
      exact Option.noConfusion hq
  exact ⟨hbad, (c3_unclosed_error "a<%b".toList [] 1 hbad).1⟩

/-! ## C4: the trim pass is local, once per side, interior untouched -/

/-- Entry `j` gets its leading whitespace stripped: the previous token
exists, is a directive (non-text), and carries `trim.forward`. -/
def fwdTrimmedAt (ts : List Token) (j : Nat) : Bool :=
  j != 0 &&
    (match ts[j - 1]? with
     | some d => !d.isText && d.trimFwd
     | none => false)

/-- Entry `j` gets its trailing whitespace stripped: the next token exists,
is a directive, and carries `trim.backwards`. -/
def backTrimmedAt (ts : List Token) (j : Nat) : Bool :=
  match ts[j + 1]? with
  | some d => !d.isText && d.trimBack
  | none => false

/-- The expected final value of entry `j` of the trim pass: directives are
unchanged, and a text token is start-stripped and/or end-stripped
according to its original neighbours, each strip applied exactly once. -/
def trimExpected (ts : List Token) (j : Nat) : Token → Token
  | .text v =>
    let v1 := if fwdTrimmedAt ts j then stripStart v else v
    .text (if backTrimmedAt ts j then stripEnd v1 else v1)
  | t => t

/-- The value of entry `j` after the loop has run the first `m` steps: a
strip is present exactly when its responsible loop index is below `m`. -/
def trimStage (m : Nat) (ts : List Token) (j : Nat) : Token → Token
  | .text v =>
    let v1 := if fwdTrimmedAt ts j && decide (j ≤ m) then stripStart v else v
    .text (if backTrimmedAt ts j && decide (j + 2 ≤ m) then stripEnd v1 else v1)
  | t => t

theorem trimStage_zero (ts : List Token) (j : Nat) (t : Token) :
    trimStage 0 ts j t = t := by
  cases t with
  | text v =>
    unfold trimStage
    cases j with
    | zero => simp [fwdTrimmedAt]
    | succ j => simp
  | code v a b => rfl
  | print v a b => rfl

theorem trimStage_not_text (m : Nat) (ts : List Token) (j : Nat) (t : Token)
    (h : t.isText = false) : trimStage m ts j t = t := by
  cases t with
  | text v => simp [Token.isText] at h
  | code v a b => rfl
  | print v a b => rfl

theorem trimStage_succ_of (ts : List Token) (m j : Nat) (t : Token)
    (hj1 : j ≠ m + 1 ∨ fwdTrimmedAt ts j = false)
    (hj2 : j + 2 ≠ m + 1 ∨ backTrimmedAt ts j = false) :
    trimStage (m + 1) ts j t = trimStage m ts j t := by
  cases t with
  | code v a b => rfl
  | print v a b => rfl
  | text v =>
    have e1 : (fwdTrimmedAt ts j && decide (j ≤ m + 1)) =
        (fwdTrimmedAt ts j && decide (j ≤ m)) := by
      rcases hj1 with hne | hff
      · by_cases hjm : j ≤ m
        · simp [hjm, Nat.le_succ_of_le hjm]
        · have h2 : ¬j ≤ m + 1 := by omega
          simp [hjm, h2]
      · simp [hff]
    have e2 : (backTrimmedAt ts j && decide (j + 2 ≤ m + 1)) =
        (backTrimmedAt ts j && decide (j + 2 ≤ m)) := by
      rcases hj2 with hne | hff
      · by_cases hjm : j + 2 ≤ m
        · simp [hjm, Nat.le_succ_of_le hjm]
        · have h2 : ¬j + 2 ≤ m + 1 := by omega
          simp [hjm, h2]
      · simp [hff]
    unfold trimStage
    rw [e1, e2]

theorem stripTextAt_length (ts : List Token) (k : Nat)
    (f : List Char → List Char) : (stripTextAt ts k f).length = ts.length := by
  unfold stripTextAt
  cases hk : ts[k]? with
  | none => rfl
  | some t => cases t <;> simp [List.length_set]

theorem stripTextAt_getElem_ne (ts : List Token) (k : Nat)
    (f : List Char → List Char) {j : Nat} (h : j ≠ k) :
    (stripTextAt ts k f)[j]? = ts[j]? := by
  unfold stripTextAt
  cases hk : ts[k]? with
  | none => rfl
  | some t =>
    cases t with
    | text w => exact List.getElem?_set_ne (Ne.symm h)
    | code v a b => rfl
    | print v a b => rfl

theorem stripTextAt_getElem_self (ts : List Token) (k : Nat)
    (f : List Char → List Char) :
    (stripTextAt ts k f)[k]? =
      match ts[k]? with
      | some (Token.text w) => some (Token.text (f w))
      | x => x := by
  unfold stripTextAt
  cases hk : ts[k]? with
  | none => simp [hk]
  | some t =>
    cases t with
    | text w =>
      have hlt : k < ts.length := by
        by_contra hnk
        rw [List.getElem?_eq_none (by omega)] at hk
        cases hk
      rw [List.getElem?_set_self hlt]
    | code v a b => simp [hk]
    | print v a b => simp [hk]

theorem trimStep_length (ts : List Token) (i : Nat) :
    (trimStep ts i).length = ts.length := by
  unfold trimStep
  cases h : ts[i]? with
  | none => rfl
  | some t =>
    by_cases ht : t.isText = true
    · simp [ht]
    · by_cases h1 : t.trimFwd = true <;> by_cases h2 : t.trimBack = true ∧ 0 < i <;>
        simp [ht, h1, h2, stripTextAt_length]

theorem trimStage_gt (m : Nat) (ts : List Token) (j : Nat) (t : Token)
    (h : m < j) : trimStage m ts j t = t := by
  cases t with
  | text v =>
    unfold trimStage
    simp [show ¬j ≤ m from by omega, show ¬j + 2 ≤ m from by omega]
  | code v a b => rfl
  | print v a b => rfl

theorem trimFold_length (ts : List Token) :
    ∀ m, ((List.range m).foldl trimStep ts).length = ts.length := by
  intro m
  induction m with
  | zero => rfl
  | succ m ih =>
    rw [List.range_succ, List.foldl_append, List.foldl_cons, List.foldl_nil]
    rw [trimStep_length, ih]

theorem trimPass_fold (ts : List Token) :
    ∀ m j, ((List.range m).foldl trimStep ts)[j]? =
      (ts[j]?).map (trimStage m ts j) := by
  intro m
  induction m with
  | zero =>
    intro j
    cases htj : ts[j]? <;> simp [htj, trimStage_zero]
  | succ m ih =>
    intro j
    rw [List.range_succ, List.foldl_append, List.foldl_cons, List.foldl_nil]
    set G := (List.range m).foldl trimStep ts with hG
    have hGm := ih m
    unfold trimStep
    cases htm : ts[m]? with
    | none =>
      rw [htm] at hGm
      simp only [Option.map_none'] at hGm
      rw [hGm]
      dsimp only
      rw [ih j]
      cases htj : ts[j]? with
      | none => rfl
      | some tj =>
        simp only [Option.map_some']
        rw [trimStage_succ_of]
        · by_cases hjm : j = m + 1
          · subst hjm
            exact Or.inr (by simp [fwdTrimmedAt, htm])
          · exact Or.inl hjm
        · by_cases hjm : j + 2 = m + 1
          · refine Or.inr ?_
            have hj1m : j + 1 = m := by omega
            simp [backTrimmedAt, hj1m, htm]
          · exact Or.inl hjm
    | some t =>
      rw [htm] at hGm
      simp only [Option.map_some'] at hGm
      rw [hGm]
      dsimp only
      by_cases htd : t.isText = true
      · have hstage : (trimStage m ts m t).isText = true := by
          cases t with
          | text v => rfl
          | code v a b => simp [Token.isText] at htd
          | print v a b => simp [Token.isText] at htd
        rw [if_pos hstage]
        rw [ih j]
        cases htj : ts[j]? with
        | none => rfl
        | some tj =>
          simp only [Option.map_some']
          rw [trimStage_succ_of]
          · by_cases hjm : j = m + 1
            · subst hjm
              exact Or.inr (by simp [fwdTrimmedAt, htm, htd])
            · exact Or.inl hjm
          · by_cases hjm : j + 2 = m + 1
            · refine Or.inr ?_
              have hj1m : j + 1 = m := by omega
              simp [backTrimmedAt, hj1m, htm, htd]
            · exact Or.inl hjm
      · have htd' : t.isText = false := by
          revert htd
          cases t.isText <;> simp
        rw [trimStage_not_text m ts m t htd']
        rw [if_neg htd]
        have hts1j : ∀ k, k ≠ m + 1 →
            (if t.trimFwd = true then stripTextAt G (m + 1) stripStart else G)[k]? =
              G[k]? := by
          intro k hk
          by_cases hf : t.trimFwd = true
          · rw [if_pos hf]
            exact stripTextAt_getElem_ne _ _ _ hk
          · rw [if_neg hf]
        by_cases hj1 : j = m + 1
        · subst hj1
          have hres : (if t.trimBack = true ∧ 0 < m then
              stripTextAt (if t.trimFwd = true then
                stripTextAt G (m + 1) stripStart else G) (m - 1) stripEnd
              else (if t.trimFwd = true then
                stripTextAt G (m + 1) stripStart else G))[m + 1]? =
              (if t.trimFwd = true then
                stripTextAt G (m + 1) stripStart else G)[m + 1]? := by
            by_cases hcond : t.trimBack = true ∧ 0 < m
            · have h0 := hcond.2
              rw [if_pos hcond]
              exact stripTextAt_getElem_ne _ _ _ (by omega)
            · rw [if_neg hcond]
          rw [hres]
          by_cases hf : t.trimFwd = true
          · rw [if_pos hf]
            rw [stripTextAt_getElem_self]
            rw [ih (m + 1)]
            cases htj : ts[m + 1]? with
            | none => rfl
            | some tj =>
              simp only [Option.map_some']
              rw [trimStage_gt m ts (m + 1) tj (by omega)]
              cases tj with
              | text w =>
                have hfw : fwdTrimmedAt ts (m + 1) = true := by
                  simp [fwdTrimmedAt, htm, htd', hf]
                unfold trimStage
                simp [hfw, show m + 1 ≤ m + 1 from Nat.le_refl _,
                  show ¬m + 1 + 2 ≤ m + 1 from by omega]
              | code v a b => rfl
              | print v a b => rfl
          · rw [if_neg hf]
            rw [ih (m + 1)]
            cases htj : ts[m + 1]? with
            | none => rfl
            | some tj =>
              simp only [Option.map_some']
              rw [trimStage_succ_of]
              · exact Or.inr (by simp [fwdTrimmedAt, htm, hf])
              · exact Or.inl (by omega)
        · by_cases hj2 : j + 1 = m
          · have hm : m = j + 1 := hj2.symm
            subst hm
            by_cases hb : t.trimBack = true
            · have hcond : t.trimBack = true ∧ 0 < j + 1 := ⟨hb, by omega⟩
              rw [if_pos hcond]
              rw [show j + 1 - 1 = j from rfl]
              rw [stripTextAt_getElem_self]
              rw [hts1j j (by omega), ih j]
              cases htj : ts[j]? with
              | none => rfl
              | some tj =>
                simp only [Option.map_some']
                cases tj with
                | text u =>
                  have hbt : backTrimmedAt ts j = true := by
                    simp [backTrimmedAt, htm, htd', hb]
                  unfold trimStage
                  simp [hbt, show j ≤ j + 1 from by omega,
                    show j ≤ j + 1 + 1 from by omega,
                    show ¬j + 2 ≤ j + 1 from by omega,
                    show j + 2 ≤ j + 1 + 1 from by omega]
                | code v a b => rfl
                | print v a b => rfl
            · rw [if_neg (by simp [hb])]
              rw [hts1j j (by omega), ih j]
              cases htj : ts[j]? with
              | none => rfl
              | some tj =>
                simp only [Option.map_some']
                rw [trimStage_succ_of ts (j + 1) j tj]
                · exact Or.inl (by omega)
                · exact Or.inr (by simp [backTrimmedAt, htm, hb])
          · have hres : (if t.trimBack = true ∧ 0 < m then
                stripTextAt (if t.trimFwd = true then
                  stripTextAt G (m + 1) stripStart else G) (m - 1) stripEnd
                else (if t.trimFwd = true then
                  stripTextAt G (m + 1) stripStart else G))[j]? =
                (if t.trimFwd = true then
                  stripTextAt G (m + 1) stripStart else G)[j]? := by
              by_cases hcond : t.trimBack = true ∧ 0 < m
              · have h0 := hcond.2
                rw [if_pos hcond]
                exact stripTextAt_getElem_ne _ _ _ (by omega)
              · rw [if_neg hcond]
            rw [hres, hts1j j hj1, ih j]
            cases htj : ts[j]? with
            | none => rfl
            | some tj =>
              simp only [Option.map_some']
              rw [trimStage_succ_of]
              · exact Or.inl hj1
              · exact Or.inl (by omega)

theorem trimStage_full (ts : List Token) (j : Nat) (t : Token)
    (htj : ts[j]? = some t) : trimStage ts.length ts j t = trimExpected ts j t := by
  cases t with
  | code v a b => rfl
  | print v a b => rfl
  | text v =>
    have hjlen : j < ts.length := by
      by_contra hnj
      rw [List.getElem?_eq_none (by omega)] at htj
      cases htj
    have e1 : decide (j ≤ ts.length) = true := by
      simp
      omega
    unfold trimStage trimExpected
    by_cases hbt : backTrimmedAt ts j = true
    · have hj1len : j + 1 < ts.length := by
        by_contra hnj
        unfold backTrimmedAt at hbt
        rw [List.getElem?_eq_none (by omega)] at hbt
        simp at hbt
      have e2 : decide (j + 2 ≤ ts.length) = true := by
        simp
        omega
      simp [hbt, e1, e2]
    · have hbt' : backTrimmedAt ts j = false := by
        revert hbt
        cases backTrimmedAt ts j <;> simp
      simp [hbt', e1]

/-- C4: the trim pass strips whitespace only at the boundary adjacent to a
directive, exactly once per side: the pass preserves the token count, and
every entry's final value is its original value with leading whitespace
stripped exactly when the previous token is a directive with
`trim.forward`, and trailing whitespace stripped exactly when the next
token is a directive with `trim.backwards` (a sandwiched text token is
stripped at both ends, independently); a stripped value is a suffix
(resp. prefix) of the original with only a whitespace run removed, so
interior whitespace is never touched. -/
theorem c4_trim_local (ts : List Token) (j : Nat) (v : List Char) :
    (trimPass ts).length = ts.length ∧
    (trimPass ts)[j]? = (ts[j]?).map (trimExpected ts j) ∧
    (∃ pre, v = pre ++ stripStart v ∧ pre.all isWs = true) ∧
    (∃ suf, v = stripEnd v ++ suf ∧ suf.all isWs = true) := by
  refine ⟨trimFold_length ts ts.length, ?_, ?_, ?_⟩
  · unfold trimPass
    rw [trimPass_fold ts ts.length j]
    cases htj : ts[j]? with
    | none => rfl
    | some t =>
      simp only [Option.map_some']
      rw [trimStage_full ts j t htj]
  · refine ⟨v.takeWhile isWs, ?_, List.all_takeWhile⟩
    exact (List.takeWhile_append_dropWhile isWs v).symm
  · refine ⟨(v.reverse.takeWhile isWs).reverse, ?_, ?_⟩
    · have h := List.takeWhile_append_dropWhile isWs v.reverse
      calc v = v.reverse.reverse := (List.reverse_reverse v).symm
        _ = (v.reverse.takeWhile isWs ++ v.reverse.dropWhile isWs).reverse := by
            rw [h]
        _ = stripEnd v ++ (v.reverse.takeWhile isWs).reverse := by
            rw [List.reverse_append]
            rfl
    · rw [List.all_reverse]
      exact List.all_takeWhile
